import Mathlib

/-!
Shallow embedding of the bilibili2mp3 converter (`src/main.py`) and proofs
about the properties its specification claims.  Python strings are modelled
by `String` (a wrapper around `List Char`), the filesystem fragment the
program reads is modelled by a tree of named nodes, external effects
(`ffmpeg`, the text-completion service, `os.path.exists`) are passed in as
explicit parameters, and the observable behaviour of `process_cache` and
`main` is collected in a trace record.
-/

namespace Bili

/-- The characters the regex class in `sanitize_filename` (main.py line 24)
matches: backslash, slash, colon, star, question mark, double quote,
less-than, greater-than, pipe. -/
def illegalChars : List Char := ['\\', '/', ':', '*', '?', '\"', '<', '>', '|']

/-- The action of `re.sub` on a single character: an illegal character
becomes an underscore, everything else is kept. -/
def sanChar (c : Char) : Char := if c ∈ illegalChars then '_' else c

/-- `sanitize_filename` from main.py lines 22-24. -/
def sanitize_filename (name : String) : String := ⟨name.data.map sanChar⟩

/-- Worker for Python `str.replace` (replace all occurrences, scanning left
to right, non-overlapping).  The `Nat` argument counts characters that were
already consumed by an emitted replacement and must still be skipped; this
makes the recursion structural on the character list. -/
def goRepAux (pat rep : List Char) : Nat → List Char → List Char
  | _, [] => []
  | k+1, _ :: cs => goRepAux pat rep k cs
  | 0, c :: cs =>
    if pat.isPrefixOf (c :: cs) then rep ++ goRepAux pat rep (pat.length - 1) cs
    else c :: goRepAux pat rep 0 cs

/-- Python `s.replace(pat, rep)` on character lists, for non-empty `pat`. -/
def replaceAllL (pat rep s : List Char) : List Char := goRepAux pat rep 0 s

/-- Python `s.replace(pat, rep)`; the only pattern main.py uses is the
non-empty string `".mp3"`. -/
def pyReplace (s pat rep : String) : String :=
  if pat.data.isEmpty then s else ⟨replaceAllL pat.data rep.data s.data⟩

/-- A decimal digit as a character. -/
def digitChar : Nat → Char
  | 0 => '0'
  | 1 => '1'
  | 2 => '2'
  | 3 => '3'
  | 4 => '4'
  | 5 => '5'
  | 6 => '6'
  | 7 => '7'
  | 8 => '8'
  | 9 => '9'
  | _ => '*'

/-- Numeric value of a digit character. -/
def charVal (c : Char) : Nat := c.toNat - 48

/-- Fuel-driven big-endian decimal digit expansion. -/
def natReprAux : Nat → Nat → List Char
  | 0, _ => []
  | fuel+1, n => if n = 0 then [] else natReprAux fuel (n / 10) ++ [digitChar (n % 10)]

/-- Decimal representation of a natural number (Python `str(counter)`). -/
def natRepr (n : Nat) : List Char := if n = 0 then ['0'] else natReprAux (n + 1) n

/-- Decimal representation as a `String`. -/
def natReprS (n : Nat) : String := ⟨natRepr n⟩

/-- The replacement string `f" ({counter}).mp3"` from main.py line 168. -/
def counterName (n : Nat) : String := " (" ++ natReprS n ++ ").mp3"

/-- `base_new_output_file.replace(".mp3", f" ({counter}).mp3")`
(main.py line 168). -/
def candidate (base : String) (n : Nat) : String :=
  pyReplace base ".mp3" (counterName n)

/-- The collision-avoidance while-loop of main.py lines 165-169.  `existing`
is the finite set of paths for which `os.path.exists` answers true; the fuel
argument bounds the number of iterations and is proved sufficient below. -/
def collisionLoop (existing : List String) (base : String) : Nat → Nat → String → String
  | 0, _, cur => cur
  | fuel+1, counter, cur =>
    if existing.contains cur then
      collisionLoop existing base fuel (counter + 1) (candidate base counter)
    else cur

/-- The file name the rename step finally uses, starting from the composed
target `base` (main.py lines 164-169). -/
def resolveRename (existing : List String) (base : String) : String :=
  collisionLoop existing base (existing.length + 1) 1 base

/-- The names the collision loop can still inspect from a given state. -/
def candSeqAux (base : String) (fuel counter : Nat) (cur : String) : List String :=
  cur :: (List.range fuel).map (fun i => candidate base (counter + i))

/-- The sequence of names the collision loop inspects, in order: the base
name first, then the numbered candidates. -/
def candSeq (existing : List String) (base : String) : List String :=
  candSeqAux base (existing.length + 1) 1 base

/-- The pattern `".mp3"` as a character list. -/
def mp3L : List Char := ['.', 'm', 'p', '3']

/-- Decimal read-back of a digit string (proof device for injectivity). -/
def unRepr (l : List Char) : Nat := l.foldl (fun acc c => acc * 10 + charVal c) 0

/-- A character that is a decimal digit. -/
def DigitCh (c : Char) : Prop := ∃ d, d < 10 ∧ c = digitChar d

/-- A directory tree: the filesystem fragment the program reads. -/
inductive FSNode where
  | file (name : String)
  | dir (name : String) (children : List FSNode)

/-- Name of a directory entry. -/
def nodeName : FSNode → String
  | .file n => n
  | .dir n _ => n

/-- `os.path.isdir` on a directory entry. -/
def isDirNode : FSNode → Bool
  | .file _ => false
  | .dir _ _ => true

/-- The plain files among a directory's children (`filenames` in `os.walk`). -/
def fileNamesOf (children : List FSNode) : List String :=
  children.filterMap fun c => match c with
    | .file n => some n
    | .dir _ _ => none

/-- The names of all children (`os.listdir`); `os.path.exists` is name
membership in this list. -/
def childNamesOf (children : List FSNode) : List String := children.map nodeName

/-- All (dirpath, filenames) pairs `os.walk` yields strictly below the given
children, top-down, in listing order. -/
def walkListF (p : String) : List FSNode → List (String × List String)
  | [] => []
  | .file _ :: xs => walkListF p xs
  | .dir n c :: xs =>
    (p ++ "/" ++ n, fileNamesOf c) :: (walkListF (p ++ "/" ++ n) c ++ walkListF p xs)

/-- All (dirpath, filenames) pairs `os.walk(root)` yields, root included. -/
def allDirs (root : String) (children : List FSNode) : List (String × List String) :=
  (root, fileNamesOf children) :: walkListF root children

/-- `find_bilibili_cache` from main.py lines 75-81: every directory whose
file list contains `entry.json`. -/
def find_bilibili_cache (root : String) (children : List FSNode) : List String :=
  (allDirs root children).filterMap fun x =>
    if "entry.json" ∈ x.2 then some x.1 else none

/-- The file names tried inside every subdirectory (main.py line 102). -/
def audioCandidates : List String := ["audio.m4s", "0.blv"]

/-- The audio-file search of main.py lines 98-108: iterate over the
children of the cache directory in listing order; for a child directory,
try `audio.m4s` then `0.blv`; stop at the first hit. -/
def findAudioPath (cacheDir : String) : List FSNode → Option String
  | [] => none
  | .file _ :: rest => findAudioPath cacheDir rest
  | .dir n sub :: rest =>
    match audioCandidates.find? (fun f => (childNamesOf sub).contains f) with
    | some f => some (cacheDir ++ "/" ++ n ++ "/" ++ f)
    | none => findAudioPath cacheDir rest

/-- `page_data` object of an `entry.json` file. -/
structure PageData where
  part : Option String
deriving DecidableEq

/-- Parsed `entry.json` content: the fields main.py reads. -/
structure EntryData where
  title : Option String
  page_data : Option PageData
deriving DecidableEq

/-- Parsed AI response: the fields main.py reads. -/
structure Metadata where
  title : Option String
  artist : Option String
  album : Option String
deriving DecidableEq

/-- `data.get('page_data', {}).get('part', '')` (main.py line 92). -/
def getPart (d : EntryData) : String :=
  match d.page_data with
  | none => ""
  | some pd => pd.part.getD ""

/-- Title extraction, composition and sanitization, main.py lines 91-95. -/
def displayTitle (d : EntryData) : String :=
  let title := d.title.getD "Unknown_Title"
  let part_name := getPart d
  sanitize_filename (if part_name ≠ "" then title ++ "_" ++ part_name else title)

/-- Python `str.endswith`. -/
def pyEndsWith (s suffix : String) : Bool := suffix.data.isSuffixOf s.data

/-- The ffmpeg command line of main.py lines 119-126. -/
def buildCmd (input output : String) : List String :=
  ["ffmpeg", "-y", "-i", input, "-vn", "-acodec", "libmp3lame", "-q:a", "2", output]

/-- The temporary file name of main.py line 132. -/
def temp_audio : String := "temp_audio.m4s"

/-- `extract_metadata_with_ai`, main.py lines 26-52: `none` when no client
is configured, the service call raises, or the response body fails to parse
(`parseMeta` is the parse of the response content as a metadata object). -/
def extract_metadata_with_ai (client : Bool) (svc : Except Unit String)
    (parseMeta : String → Option Metadata) : Option Metadata :=
  if client then
    match svc with
    | .error _ => none
    | .ok content => parseMeta content
  else none

/-- Everything `process_cache` observes from its surroundings. -/
structure ProcEnv where
  cacheDir : String
  outputDir : String
  children : List FSNode
  entry : Option EntryData
  blob : List Nat
  run : List String → Int
  existing : List String
  use_ai : Bool
  client : Bool
  svc : Except Unit String
  parseMeta : String → Option Metadata

/-- The observable effects of one `process_cache` call. -/
structure Trace where
  parseError : Bool := false
  skipped : Bool := false
  ffmpegCmds : List (List String) := []
  tempContent : Option (List Nat) := none
  tempRemoved : Bool := false
  convertFailed : Bool := false
  outputFile : Option String := none
  tagsApplied : Option Metadata := none
  renamedTo : Option String := none
deriving DecidableEq

/-- The tail of `process_cache` after a successful conversion (main.py
lines 149-175): optional AI tagging and collision-safe renaming. -/
def afterSuccess (env : ProcEnv) (output_file : String) (t : Trace) : Trace :=
  let t := { t with outputFile := some output_file }
  if env.use_ai && env.client then
    match extract_metadata_with_ai env.client env.svc env.parseMeta with
    | none => t
    | some md =>
      let t := { t with tagsApplied := some md }
      let new_basename :=
        sanitize_filename ((md.artist.getD "Unknown") ++ " - " ++ (md.title.getD "Unknown"))
      let new_output_file := env.outputDir ++ "/" ++ new_basename ++ ".mp3"
      if new_output_file = output_file then t
      else { t with renamedTo := some (resolveRename env.existing new_output_file) }
  else t

/-- `process_cache`, main.py lines 83-177. -/
def process_cache (env : ProcEnv) : Trace :=
  match env.entry with
  | none => { parseError := true }
  | some data =>
    let full_title := displayTitle data
    match findAudioPath env.cacheDir env.children with
    | none => { skipped := true }
    | some audio_path =>
      let output_file := env.outputDir ++ "/" ++ full_title ++ ".mp3"
      let cmd := buildCmd audio_path output_file
      let r1 := env.run cmd
      if r1 ≠ 0 then
        if pyEndsWith audio_path ".m4s" then
          let tc := env.blob.drop 9
          let cmd2 := cmd.set 3 temp_audio
          let r2 := env.run cmd2
          if r2 ≠ 0 then
            { ffmpegCmds := [cmd, cmd2], tempContent := some tc, tempRemoved := true,
              convertFailed := true }
          else
            afterSuccess env output_file
              { ffmpegCmds := [cmd, cmd2], tempContent := some tc, tempRemoved := true }
        else
          { ffmpegCmds := [cmd], convertFailed := true }
      else
        afterSuccess env output_file { ffmpegCmds := [cmd] }

/-- Everything `main` observes from its surroundings. -/
structure MainEnv where
  ffmpegOK : Bool
  inputExists : Bool
  outputExists : Bool
  mkdirOK : Bool
  rootPath : String
  rootChildren : List FSNode
  procEnvOf : String → ProcEnv

/-- The observable outcome of one `main` run. -/
structure MainResult where
  exitCode : Nat
  summaryCount : Option Nat
  traces : List Trace

/-- `main`, main.py lines 187-237: prerequisite checks, scan, per-entry
loop, summary. -/
def main (m : MainEnv) : MainResult :=
  if !m.ffmpegOK then ⟨1, none, []⟩
  else if !m.inputExists then ⟨1, none, []⟩
  else if !m.outputExists && !m.mkdirOK then ⟨1, none, []⟩
  else
    let dirs := find_bilibili_cache m.rootPath m.rootChildren
    if dirs.isEmpty then ⟨0, none, []⟩
    else ⟨0, some dirs.length, dirs.map (fun d => process_cache (m.procEnvOf d))⟩

/-- First-match specification of the audio search: the first child
directory holding one of the candidate names wins, `audio.m4s` first. -/
def firstAudioSpec (cacheDir : String) (children : List FSNode) : Option String :=
  children.findSome? fun c => match c with
    | .file _ => none
    | .dir n sub =>
      (audioCandidates.find? (fun f => (childNamesOf sub).contains f)).map
        (fun f => cacheDir ++ "/" ++ n ++ "/" ++ f)

/-- Replace a child directory's content by bare names: what the audio
search would see if nesting below depth two were erased. -/
def pruneDeep : FSNode → FSNode
  | .file n => .file n
  | .dir n sub => .dir n (sub.map (fun c => FSNode.file (nodeName c)))

/-- Concrete environment: the primary ffmpeg call fails, the source is an
`.m4s` file, so the fallback must run. -/
def wEnvAudio : ProcEnv :=
  { cacheDir := "c", outputDir := "o",
    children := [.dir "1" [.file "audio.m4s"]],
    entry := some ⟨some "vid", none⟩,
    blob := [0, 1, 2, 3, 4, 5, 6, 7, 8, 9, 10],
    run := fun c => if c = buildCmd "c/1/audio.m4s" "o/vid.mp3" then 1 else 0,
    existing := [], use_ai := false, client := false,
    svc := .error (), parseMeta := fun _ => none }

/-- Concrete environment: no subdirectory holds an audio candidate. -/
def wEnvSkip : ProcEnv :=
  { cacheDir := "c", outputDir := "o",
    children := [.file "entry.json", .dir "1" [.file "video.m4s"]],
    entry := some ⟨some "t", none⟩,
    blob := [], run := fun _ => 0,
    existing := [], use_ai := false, client := false,
    svc := .error (), parseMeta := fun _ => none }

/-- Concrete environment: AI enabled but the response fails to parse. -/
def wEnvNoMeta : ProcEnv :=
  { cacheDir := "c", outputDir := "o",
    children := [.dir "1" [.file "audio.m4s"]],
    entry := some ⟨some "t", none⟩,
    blob := [], run := fun _ => 0,
    existing := [], use_ai := true, client := true,
    svc := .ok "not json", parseMeta := fun _ => none }

/-- Concrete environment: the AI title itself contains `.mp3` and the
rename target already exists, exposing the replace-all collision naming. -/
def xEnvRename : ProcEnv :=
  { cacheDir := "c", outputDir := "o",
    children := [.dir "1" [.file "audio.m4s"]],
    entry := some ⟨some "vid", none⟩,
    blob := [], run := fun _ => 0,
    existing := ["o/U - A.mp3 B.mp3"],
    use_ai := true, client := true,
    svc := .ok "resp",
    parseMeta := fun _ => some ⟨some "A.mp3 B", some "U", none⟩ }

/-- Concrete cache tree with two entry directories, one nested. -/
def wTree : List FSNode :=
  [.dir "a" [.file "entry.json", .dir "64" [.file "audio.m4s"]],
   .file "stray",
   .dir "b" [.dir "c" [.file "entry.json"]]]

/-- Concrete orchestrator environment with all prerequisites satisfied. -/
def wMainEnv : MainEnv :=
  { ffmpegOK := true, inputExists := true, outputExists := true, mkdirOK := true,
    rootPath := "r", rootChildren := wTree, procEnvOf := fun _ => wEnvSkip }

/-! ### Lemmas about the embedded `str.replace` -/

theorem goRepAux_skip (pat rep : List Char) :
    ∀ (s : List Char) (k : Nat), goRepAux pat rep k s = goRepAux pat rep 0 (s.drop k) := by
  intro s
  induction s with
  | nil => intro k; cases k <;> rfl
  | cons c cs ih =>
    intro k
    cases k with
    | zero => rfl
    | succ j => simpa [goRepAux] using ih j

theorem replaceAllL_cons (pat rep : List Char) (hp : pat ≠ []) (c : Char) (cs : List Char) :
    replaceAllL pat rep (c :: cs) =
      if pat.isPrefixOf (c :: cs) then rep ++ replaceAllL pat rep ((c :: cs).drop pat.length)
      else c :: replaceAllL pat rep cs := by
  obtain ⟨q, qs, rfl⟩ : ∃ q qs, pat = q :: qs := by
    cases pat with
    | nil => exact absurd rfl hp
    | cons q qs => exact ⟨q, qs, rfl⟩
  by_cases h : (q :: qs).isPrefixOf (c :: cs)
  · simp [replaceAllL, goRepAux, h, goRepAux_skip]
  · simp [replaceAllL, goRepAux, h]

theorem append_ne_append (a b x y : List Char) (h₁ : ¬ a <+: b) (h₂ : ¬ b <+: a) :
    a ++ x ≠ b ++ y := by
  intro h
  have ha : a <+: a ++ x := ⟨x, rfl⟩
  have hb : b <+: a ++ x := by rw [h]; exact ⟨y, rfl⟩
  rcases List.prefix_or_prefix_of_prefix ha hb with hc | hc
  · exact h₁ hc
  · exact h₂ hc

theorem replaceAll_ne (pat rep₁ rep₂ : List Char) (hp : pat ≠ [])
    (h₁ : ¬ rep₁ <+: rep₂) (h₂ : ¬ rep₂ <+: rep₁) :
    ∀ (A B : List Char),
      replaceAllL pat rep₁ (A ++ (pat ++ B)) ≠ replaceAllL pat rep₂ (A ++ (pat ++ B)) := by
  intro A
  induction A with
  | nil =>
    intro B
    obtain ⟨q, qs, hq⟩ : ∃ q qs, pat = q :: qs := by
      cases pat with
      | nil => exact absurd rfl hp
      | cons q qs => exact ⟨q, qs, rfl⟩
    have hpre : pat.isPrefixOf (pat ++ B) := ( List.isPrefixOf_iff_prefix).mpr ⟨B, rfl⟩
    rw [List.nil_append]
    rw [show pat ++ B = q :: (qs ++ B) from by rw [hq]; rfl]
    rw [replaceAllL_cons _ _ hp, replaceAllL_cons _ _ hp]
    rw [show q :: (qs ++ B) = pat ++ B from by rw [hq]; rfl]
    simp only [hpre, if_true]
    exact append_ne_append _ _ _ _ h₁ h₂
  | cons a A ih =>
    intro B
    rw [List.cons_append, replaceAllL_cons _ _ hp, replaceAllL_cons _ _ hp]
    by_cases hpre : pat.isPrefixOf (a :: (A ++ (pat ++ B)))
    · simp only [hpre, if_true]
      exact append_ne_append _ _ _ _ h₁ h₂
    · simp only [hpre, if_false]
      intro h
      exact ih B ((List.cons.inj h).2)

theorem replaceAll_ne_self (pat rep : List Char) (hp : pat ≠ [])
    (h₁ : ¬ pat <+: rep) (h₂ : ¬ rep <+: pat) :
    ∀ (A B : List Char), replaceAllL pat rep (A ++ (pat ++ B)) ≠ A ++ (pat ++ B) := by
  intro A
  induction A with
  | nil =>
    intro B
    obtain ⟨q, qs, hq⟩ : ∃ q qs, pat = q :: qs := by
      cases pat with
      | nil => exact absurd rfl hp
      | cons q qs => exact ⟨q, qs, rfl⟩
    have hpre : pat.isPrefixOf (pat ++ B) := ( List.isPrefixOf_iff_prefix).mpr ⟨B, rfl⟩
    rw [List.nil_append]
    rw [show pat ++ B = q :: (qs ++ B) from by rw [hq]; rfl]
    rw [replaceAllL_cons _ _ hp]
    rw [show q :: (qs ++ B) = pat ++ B from by rw [hq]; rfl]
    simp only [hpre, if_true]
    exact append_ne_append _ _ _ _ h₂ h₁
  | cons a A ih =>
    intro B
    rw [List.cons_append, replaceAllL_cons _ _ hp]
    by_cases hpre : pat.isPrefixOf (a :: (A ++ (pat ++ B)))
    · simp only [hpre, if_true]
      obtain ⟨t, ht⟩ : pat <+: (a :: (A ++ (pat ++ B))) := ( List.isPrefixOf_iff_prefix).mp hpre
      rw [← ht]
      exact append_ne_append _ _ _ _ h₂ h₁
    · simp only [hpre, if_false]
      intro h
      exact ih B ((List.cons.inj h).2)

theorem replaceAll_tail (pat rep : List Char) (hp : pat ≠ []) :
    ∀ (A : List Char), ¬ (pat <:+: (A ++ pat.dropLast)) →
      replaceAllL pat rep (A ++ pat) = A ++ rep := by
  intro A
  induction A with
  | nil =>
    intro _
    obtain ⟨q, qs, hq⟩ : ∃ q qs, pat = q :: qs := by
      cases pat with
      | nil => exact absurd rfl hp
      | cons q qs => exact ⟨q, qs, rfl⟩
    subst hq
    rw [List.nil_append, List.nil_append]
    rw [replaceAllL_cons _ _ hp]
    have hpre : (q :: qs).isPrefixOf (q :: qs) :=
      ( List.isPrefixOf_iff_prefix).mpr ( List.prefix_refl _)
    simp only [hpre, if_true, List.drop_length]
    simp [replaceAllL, goRepAux]
  | cons a A ih =>
    intro hno
    rw [List.cons_append, replaceAllL_cons _ _ hp]
    have hpre : ¬ pat.isPrefixOf (a :: (A ++ pat)) := by
      intro hcon
      apply hno
      have h1 : pat <+: (a :: (A ++ pat)) := ( List.isPrefixOf_iff_prefix).mp hcon
      have h2 : (a :: (A ++ pat.dropLast)) <+: (a :: (A ++ pat)) := by
        rw [ List.cons_prefix_cons]
        exact ⟨rfl, ( List.prefix_append_right_inj A).mpr ( List.dropLast_prefix pat)⟩
      have hlen : pat.length ≤ (a :: (A ++ pat.dropLast)).length := by
        have hplen : 1 ≤ pat.length := List.length_pos.mpr hp
        simp [List.length_dropLast]
        omega
      have h3 : pat <+: ((a :: A) ++ pat.dropLast) := by
        rw [List.cons_append]
        exact List.prefix_of_prefix_length_le h1 h2 hlen
      exact List.IsPrefix.isInfix h3
    rw [ih (fun hcon => hno (List.infix_cons hcon))]
    simp [hpre]

/-! ### Lemmas about the decimal counter -/

theorem digitChar_fin_ne_rparen : ∀ d : Fin 10, digitChar d.val ≠ ')' := by decide

theorem charVal_digitChar_fin : ∀ d : Fin 10, charVal (digitChar d.val) = d.val := by decide

theorem digitChar_ne_rparen {d : Nat} (hd : d < 10) : digitChar d ≠ ')' :=
  digitChar_fin_ne_rparen ⟨d, hd⟩

theorem charVal_digitChar {d : Nat} (hd : d < 10) : charVal (digitChar d) = d :=
  charVal_digitChar_fin ⟨d, hd⟩

theorem natReprAux_zero (fuel : Nat) : natReprAux fuel 0 = [] := by
  cases fuel <;> simp [natReprAux]

theorem unRepr_append_digit (l : List Char) (c : Char) :
    unRepr (l ++ [c]) = unRepr l * 10 + charVal c := by
  simp [unRepr, List.foldl_append]

theorem unRepr_natReprAux :
    ∀ fuel n, n ≤ fuel → n ≠ 0 → unRepr (natReprAux fuel n) = n := by
  intro fuel
  induction fuel with
  | zero => intro n hn h0; omega
  | succ f ih =>
    intro n hn h0
    rw [natReprAux, if_neg h0, unRepr_append_digit]
    by_cases hq : n / 10 = 0
    · rw [hq, natReprAux_zero]
      have h10 : n % 10 < 10 := Nat.mod_lt _ (by norm_num)
      rw [charVal_digitChar h10]
      have : unRepr [] = 0 := rfl
      rw [this]
      omega
    · have hlt : n / 10 < n := Nat.div_lt_self (Nat.pos_of_ne_zero h0) (by norm_num)
      have hle : n / 10 ≤ f := by omega
      rw [ih (n / 10) hle hq, charVal_digitChar (Nat.mod_lt _ (by norm_num))]
      omega

theorem unRepr_natRepr (n : Nat) : unRepr (natRepr n) = n := by
  by_cases h : n = 0
  · subst h; rfl
  · rw [natRepr, if_neg h]
    exact unRepr_natReprAux (n + 1) n (by omega) h

theorem natRepr_inj : Function.Injective natRepr := by
  intro a b h
  have h2 := congrArg unRepr h
  rwa [unRepr_natRepr, unRepr_natRepr] at h2

theorem natReprAux_digits : ∀ fuel n, ∀ c ∈ natReprAux fuel n, DigitCh c := by
  intro fuel
  induction fuel with
  | zero => intro n c h; simp [natReprAux] at h
  | succ f ih =>
    intro n c h
    rw [natReprAux] at h
    by_cases h0 : n = 0
    · simp [h0] at h
    · rw [if_neg h0] at h
      rcases List.mem_append.mp h with h | h
      · exact ih _ _ h
      · have : c = digitChar (n % 10) := by simpa using h
        exact ⟨n % 10, Nat.mod_lt _ (by norm_num), this⟩

theorem natRepr_digits (n : Nat) : ∀ c ∈ natRepr n, DigitCh c := by
  intro c hc
  by_cases h : n = 0
  · rw [natRepr, if_pos h] at hc
    exact ⟨0, by norm_num, by simpa using hc⟩
  · rw [natRepr, if_neg h] at hc
    exact natReprAux_digits _ _ _ hc

theorem digits_close_pref :
    ∀ (xs ys r r' : List Char), (∀ c ∈ xs, DigitCh c) → (∀ c ∈ ys, DigitCh c) →
      ((xs ++ ')' :: r) <+: (ys ++ ')' :: r')) → xs = ys := by
  intro xs
  induction xs with
  | nil =>
    intro ys r r' _ hys h
    cases ys with
    | nil => rfl
    | cons y ys =>
      exfalso
      rw [List.nil_append, List.cons_append] at h
      have heq := ( List.cons_prefix_cons.mp h).1
      obtain ⟨d, hd, hy⟩ := hys y (List.mem_cons_self _ _)
      exact digitChar_ne_rparen hd (by rw [← hy, ← heq])
  | cons x xs ih =>
    intro ys r r' hxs hys h
    cases ys with
    | nil =>
      exfalso
      rw [List.nil_append, List.cons_append] at h
      have heq := ( List.cons_prefix_cons.mp h).1
      obtain ⟨d, hd, hx⟩ := hxs x (List.mem_cons_self _ _)
      exact digitChar_ne_rparen hd (by rw [← hx, heq])
    | cons y ys =>
      rw [List.cons_append, List.cons_append] at h
      obtain ⟨hxy, ht⟩ := List.cons_prefix_cons.mp h
      rw [hxy]
      have := ih ys r r' (fun c hc => hxs c (List.mem_cons_of_mem _ hc))
        (fun c hc => hys c (List.mem_cons_of_mem _ hc)) ht
      rw [this]

theorem counterName_data (n : Nat) :
    (counterName n).data = ' ' :: '(' :: (natRepr n ++ ')' :: mp3L) := by
  show (" (" ++ natReprS n ++ ").mp3").data = _
  rw [String.data_append, String.data_append]
  show ([' ', '('] ++ natRepr n) ++ (')' :: mp3L) = _
  simp

theorem counterName_notPref {n m : Nat} (h : n ≠ m) :
    ¬ ((counterName n).data <+: (counterName m).data) := by
  intro hp
  rw [counterName_data, counterName_data] at hp
  rw [ List.cons_prefix_cons] at hp
  rw [ List.cons_prefix_cons] at hp
  exact h (natRepr_inj (digits_close_pref _ _ _ _ (natRepr_digits n) (natRepr_digits m)
    hp.2.2))

theorem mp3_notPref_counter (n : Nat) : ¬ (mp3L <+: (counterName n).data) := by
  intro hp
  rw [counterName_data] at hp
  rw [show mp3L = '.' :: ['m', 'p', '3'] from rfl] at hp
  have := ( List.cons_prefix_cons.mp hp).1
  exact absurd this (by decide)

theorem counter_notPref_mp3 (n : Nat) : ¬ ((counterName n).data <+: mp3L) := by
  intro hp
  rw [counterName_data] at hp
  rw [show mp3L = '.' :: ['m', 'p', '3'] from rfl] at hp
  have := ( List.cons_prefix_cons.mp hp).1
  exact absurd this (by decide)

/-! ### Lemmas about the rename candidates and the collision loop -/

theorem candidate_eq (base : String) (n : Nat) :
    candidate base n = ⟨replaceAllL mp3L (counterName n).data base.data⟩ := rfl

theorem mp3L_ne_nil : mp3L ≠ [] := by decide

theorem candidate_inj {base : String} {A : List Char} (hb : base.data = A ++ mp3L)
    {n m : Nat} (h : n ≠ m) : candidate base n ≠ candidate base m := by
  rw [candidate_eq, candidate_eq]
  intro hcon
  have hdata : replaceAllL mp3L (counterName n).data base.data =
      replaceAllL mp3L (counterName m).data base.data := congrArg String.data hcon
  rw [hb] at hdata
  have hocc : A ++ mp3L = A ++ (mp3L ++ []) := by simp
  rw [hocc] at hdata
  exact replaceAll_ne mp3L _ _ mp3L_ne_nil (counterName_notPref h)
    (counterName_notPref (Ne.symm h)) A [] hdata

theorem candidate_ne_base {base : String} {A : List Char} (hb : base.data = A ++ mp3L)
    (n : Nat) : candidate base n ≠ base := by
  rw [candidate_eq]
  intro hcon
  have hdata : replaceAllL mp3L (counterName n).data base.data = base.data :=
    congrArg String.data hcon
  rw [hb] at hdata
  have hocc : A ++ mp3L = A ++ (mp3L ++ []) := by simp
  rw [hocc] at hdata
  exact replaceAll_ne_self mp3L (counterName n).data mp3L_ne_nil
    (mp3_notPref_counter n) (counter_notPref_mp3 n) A [] hdata

theorem candidate_extension (stem : String) (n : Nat)
    (h : ¬ (mp3L <:+: (stem.data ++ ['.', 'm', 'p']))) :
    candidate (stem ++ ".mp3") n = stem ++ counterName n := by
  rw [candidate_eq]
  have h1 : (stem ++ ".mp3").data = stem.data ++ mp3L := by
    rw [String.data_append]; rfl
  have h2 : replaceAllL mp3L (counterName n).data (stem.data ++ mp3L) =
      stem.data ++ (counterName n).data := by
    apply replaceAll_tail mp3L _ mp3L_ne_nil stem.data
    simpa using h
  apply String.ext
  rw [h1]
  show replaceAllL mp3L (counterName n).data (stem.data ++ mp3L) =
    (stem ++ counterName n).data
  rw [h2, String.data_append]

theorem candSeqAux_succ (base : String) (fuel counter : Nat) (cur : String) :
    candSeqAux base (fuel + 1) counter cur =
      cur :: candSeqAux base fuel (counter + 1) (candidate base counter) := by
  unfold candSeqAux
  rw [List.range_succ_eq_map]
  simp only [List.map_cons, List.map_map, Nat.add_zero, List.cons.injEq, true_and]
  apply List.map_congr_left
  intro i _
  show candidate base (counter + (i + 1)) = candidate base (counter + 1 + i)
  rw [show counter + (i + 1) = counter + 1 + i from by omega]

theorem collisionLoop_find (existing : List String) (base : String) :
    ∀ (fuel counter : Nat) (cur r : String),
      (candSeqAux base fuel counter cur).find? (fun x => !(existing.contains x)) = some r →
      collisionLoop existing base fuel counter cur = r := by
  intro fuel
  induction fuel with
  | zero =>
    intro counter cur r h
    simp only [candSeqAux, List.range_zero, List.map_nil] at h
    by_cases hc : existing.contains cur
    · rw [List.find?_cons_of_neg] at h
      · simp at h
      · simpa using hc
    · rw [List.find?_cons_of_pos] at h
      · simpa [collisionLoop] using h
      · simpa using hc
  | succ f ih =>
    intro counter cur r h
    rw [candSeqAux_succ] at h
    by_cases hc : existing.contains cur
    · rw [List.find?_cons_of_neg] at h
      · rw [collisionLoop, if_pos hc]
        exact ih _ _ _ h
      · simpa using hc
    · rw [List.find?_cons_of_pos] at h
      · rw [collisionLoop, if_neg hc]
        simpa using h
      · simpa using hc

theorem candSeq_find_isSome (existing : List String) (base : String)
    {A : List Char} (hb : base.data = A ++ mp3L) :
    ((candSeq existing base).find? (fun x => !(existing.contains x))).isSome := by
  by_contra h
  rw [Option.not_isSome_iff_eq_none] at h
  have hall : ∀ x ∈ candSeq existing base, x ∈ existing := by
    intro x hx
    have h2 := List.find?_eq_none.mp h x hx
    simpa using h2
  have hnd : (candSeq existing base).Nodup := by
    unfold candSeq candSeqAux
    rw [List.nodup_cons]
    constructor
    · intro hmem
      obtain ⟨i, _, hi⟩ := List.mem_map.mp hmem
      exact candidate_ne_base hb (1 + i) hi
    · refine List.Nodup.map ?_ (List.nodup_range _)
      intro i j hij
      by_contra hne
      exact candidate_inj hb (show 1 + i ≠ 1 + j from by omega) hij
  have hsub : (candSeq existing base).toFinset ⊆ existing.toFinset := by
    intro x hx
    rw [List.mem_toFinset] at hx ⊢
    exact hall x hx
  have h1 : (candSeq existing base).toFinset.card = existing.length + 2 := by
    rw [List.toFinset_card_of_nodup hnd]
    simp [candSeq, candSeqAux]
  have h2 := Finset.card_le_card hsub
  have h3 := List.toFinset_card_le existing
  omega

theorem resolveRename_spec (existing : List String) (base : String)
    {A : List Char} (hb : base.data = A ++ mp3L) :
    some (resolveRename existing base) =
      (candSeq existing base).find? (fun x => !(existing.contains x)) := by
  obtain ⟨r, hr⟩ := Option.isSome_iff_exists.mp (candSeq_find_isSome existing base hb)
  rw [hr]
  exact congrArg some (collisionLoop_find existing base _ _ _ _ hr)

theorem resolveRename_not_mem (existing : List String) (base : String)
    {A : List Char} (hb : base.data = A ++ mp3L) :
    resolveRename existing base ∉ existing := by
  have h := (resolveRename_spec existing base hb).symm
  have h2 := List.find?_some h
  simpa using h2

theorem resolveRename_of_free (existing : List String) (base : String)
    (h : base ∉ existing) : resolveRename existing base = base := by
  unfold resolveRename
  rw [collisionLoop, if_neg (by simpa using h)]

/-! ### Structural lemmas about `afterSuccess`, `process_cache` and `main` -/

theorem afterSuccess_preserves (env : ProcEnv) (o : String) (t : Trace) :
    (afterSuccess env o t).parseError = t.parseError ∧
    (afterSuccess env o t).skipped = t.skipped ∧
    (afterSuccess env o t).ffmpegCmds = t.ffmpegCmds ∧
    (afterSuccess env o t).tempContent = t.tempContent ∧
    (afterSuccess env o t).tempRemoved = t.tempRemoved ∧
    (afterSuccess env o t).convertFailed = t.convertFailed ∧
    (afterSuccess env o t).outputFile = some o := by
  simp only [afterSuccess]
  split
  · split
    · simp
    · split <;> simp
  · simp

theorem afterSuccess_noMeta (env : ProcEnv) (o : String) (t : Trace)
    (h : extract_metadata_with_ai env.client env.svc env.parseMeta = none) :
    (afterSuccess env o t).tagsApplied = t.tagsApplied ∧
    (afterSuccess env o t).renamedTo = t.renamedTo := by
  simp only [afterSuccess, h]
  split <;> exact ⟨rfl, rfl⟩

theorem afterSuccess_renamedTo (env : ProcEnv) (o : String) (t : Trace)
    (ht : t.renamedTo = none) (r : String)
    (h : (afterSuccess env o t).renamedTo = some r) :
    ∃ nb, r = resolveRename env.existing (env.outputDir ++ "/" ++ nb ++ ".mp3") := by
  revert h
  simp only [afterSuccess]
  split
  · split
    · simp [ht]
    · next md heq =>
      split
      · simp [ht]
      · intro h
        refine ⟨sanitize_filename ((md.artist.getD "Unknown") ++ " - " ++ (md.title.getD "Unknown")), ?_⟩
        simpa using h.symm
  · simp [ht]

theorem afterSuccess_renamed_safe (env : ProcEnv) (o : String) (t : Trace)
    (ht : t.renamedTo = none) (r : String)
    (h : (afterSuccess env o t).renamedTo = some r) : r ∉ env.existing := by
  obtain ⟨nb, hr⟩ := afterSuccess_renamedTo env o t ht r h
  subst hr
  exact @resolveRename_not_mem env.existing _ ((env.outputDir ++ "/" ++ nb).data)
    (by rw [String.data_append]; rfl)

theorem process_renamed_safe (env : ProcEnv) (r : String)
    (h : (process_cache env).renamedTo = some r) : r ∉ env.existing := by
  revert h
  unfold process_cache
  cases he : env.entry with
  | none => intro h; simp at h
  | some data =>
    cases hp : findAudioPath env.cacheDir env.children with
    | none => intro h; simp at h
    | some p =>
      simp only
      split
      · split
        · split
          · intro h; simp at h
          · exact afterSuccess_renamed_safe env _ _ rfl r
        · intro h; simp at h
      · exact afterSuccess_renamed_safe env _ _ rfl r

/-! ### Lemmas about the audio search -/

theorem findAudio_eq_first (cd : String) :
    ∀ children, findAudioPath cd children = firstAudioSpec cd children := by
  intro children
  induction children with
  | nil => rfl
  | cons c rest ih =>
    cases c with
    | file n =>
      simp only [findAudioPath, firstAudioSpec, List.findSome?_cons]
      exact ih
    | dir n sub =>
      simp only [findAudioPath, firstAudioSpec, List.findSome?_cons]
      cases h : audioCandidates.find? (fun f => (childNamesOf sub).contains f) with
      | none => simp only [h, Option.map_none]; exact ih
      | some f => simp [h]

theorem findAudio_dirs_only (cd : String) :
    ∀ children, findAudioPath cd (children.filter isDirNode) = findAudioPath cd children := by
  intro children
  induction children with
  | nil => rfl
  | cons c rest ih =>
    cases c with
    | file n =>
      simpa [List.filter_cons, isDirNode, findAudioPath] using ih
    | dir n sub =>
      simp only [List.filter_cons, isDirNode, if_true, findAudioPath]
      cases h : audioCandidates.find? (fun f => (childNamesOf sub).contains f) with
      | none => simp only [h]; exact ih
      | some f => simp [h]

theorem findAudio_prune (cd : String) :
    ∀ children, findAudioPath cd (children.map pruneDeep) = findAudioPath cd children := by
  intro children
  induction children with
  | nil => rfl
  | cons c rest ih =>
    cases c with
    | file n => simpa [pruneDeep, findAudioPath] using ih
    | dir n sub =>
      have hnames : childNamesOf (sub.map (fun c => FSNode.file (nodeName c))) =
          childNamesOf sub := by
        simp only [childNamesOf, List.map_map]
        apply List.map_congr_left
        intro a _
        rfl
      simp only [List.map_cons, pruneDeep, findAudioPath, hnames]
      cases h : audioCandidates.find? (fun f => (childNamesOf sub).contains f) with
      | none => simp only [h]; exact ih
      | some f => simp [h]

theorem findAudio_cons_dir (cd n : String) (sub rest : List FSNode) :
    findAudioPath cd (.dir n sub :: rest) =
      if "audio.m4s" ∈ childNamesOf sub then
        some (cd ++ "/" ++ n ++ "/" ++ "audio.m4s")
      else if "0.blv" ∈ childNamesOf sub then
        some (cd ++ "/" ++ n ++ "/" ++ "0.blv")
      else findAudioPath cd rest := by
  simp only [findAudioPath, audioCandidates, List.find?]
  by_cases h1 : "audio.m4s" ∈ childNamesOf sub
  · simp [h1]
  · by_cases h2 : "0.blv" ∈ childNamesOf sub <;> simp [h1, h2]

/-! ### Lemmas about the orchestrator -/

theorem length_filterMap_count {α β : Type} (p : α → Prop) [DecidablePred p] (f : α → β) :
    ∀ l : List α,
      (l.filterMap fun x => if p x then some (f x) else none).length =
        l.countP (fun x => decide (p x)) := by
  intro l
  induction l with
  | nil => rfl
  | cons a t ih => by_cases h : p a <;> simp [List.filterMap_cons, h, ih, List.countP_cons]

theorem main_exitCode (m : MainEnv) :
    (main m).exitCode =
      if !m.ffmpegOK then 1 else if !m.inputExists then 1
      else if !m.outputExists && !m.mkdirOK then 1 else 0 := by
  cases hf : m.ffmpegOK <;> cases hi : m.inputExists <;>
    cases ho : m.outputExists <;> cases hk : m.mkdirOK <;>
      simp [main, hf, hi, ho, hk] <;> (try (split <;> rfl))

/-! ### Claim theorems -/

/-- C1: for every cache directory, the audio search iterates over the
directory's immediate children in listing order; inside each child
directory it checks for `audio.m4s` first and `0.blv` second; it returns
the first existing match and stops the scan there; plain files lying
directly in the cache directory are skipped and content nested deeper
than a child directory's immediate entries is never consulted. -/
theorem audio_resolution_first_match (cd : String) (children : List FSNode) :
    findAudioPath cd children = firstAudioSpec cd children ∧
    (∀ (n : String) (sub rest : List FSNode),
      findAudioPath cd (.dir n sub :: rest) =
        if "audio.m4s" ∈ childNamesOf sub then
          some (cd ++ "/" ++ n ++ "/" ++ "audio.m4s")
        else if "0.blv" ∈ childNamesOf sub then
          some (cd ++ "/" ++ n ++ "/" ++ "0.blv")
        else findAudioPath cd rest) ∧
    findAudioPath cd (children.filter isDirNode) = findAudioPath cd children ∧
    findAudioPath cd (children.map pruneDeep) = findAudioPath cd children :=
  ⟨findAudio_eq_first cd children, fun n sub rest => findAudio_cons_dir cd n sub rest,
   findAudio_dirs_only cd children, findAudio_prune cd children⟩

/-- C4: sanitization preserves length, acts pointwise, and maps exactly
the characters of the illegal set to underscore while keeping every other
character. -/
theorem sanitize_pointwise (s : String) :
    (sanitize_filename s).length = s.length ∧
    (∀ i : Nat, (sanitize_filename s).data[i]? = (s.data[i]?).map sanChar) ∧
    (∀ c : Char, (c ∈ illegalChars → sanChar c = '_') ∧
      (c ∉ illegalChars → sanChar c = c)) := by
  refine ⟨?_, ?_, ?_⟩
  · show (s.data.map sanChar).length = s.data.length
    exact List.length_map _ _
  · intro i
    show (s.data.map sanChar)[i]? = _
    exact List.getElem?_map sanChar s.data i
  · intro c
    constructor
    · intro h; simp [sanChar, h]
    · intro h; simp [sanChar, h]

/-- C5: the display title is the sanitized raw title when no part is
present, the sanitized `title_part` when a non-empty part is present
under `page_data`, and the placeholder `Unknown_Title` replaces an absent
title. -/
theorem display_title_spec (t p : String) (pd : Option PageData) :
    displayTitle ⟨some t, none⟩ = sanitize_filename t ∧
    displayTitle ⟨some t, some ⟨none⟩⟩ = sanitize_filename t ∧
    (p ≠ "" → displayTitle ⟨some t, some ⟨some p⟩⟩ = sanitize_filename (t ++ "_" ++ p)) ∧
    displayTitle ⟨none, pd⟩ = displayTitle ⟨some "Unknown_Title", pd⟩ := by
  refine ⟨?_, ?_, ?_, ?_⟩
  · simp [displayTitle, getPart]
  · simp [displayTitle, getPart]
  · intro hp; simp [displayTitle, getPart, hp]
  · rfl

/-- C10: a part field that is present but empty behaves exactly like an
absent part: the display title is the sanitized title alone, with no
trailing underscore appended. -/
theorem empty_part_spec (t : Option String) (s : String) :
    displayTitle ⟨t, some ⟨some ""⟩⟩ = displayTitle ⟨t, none⟩ ∧
    displayTitle ⟨some s, some ⟨some ""⟩⟩ = sanitize_filename s := by
  constructor
  · simp [displayTitle, getPart]
  · simp [displayTitle, getPart]

theorem buildCmd_set (input output : String) :
    (buildCmd input output).set 3 temp_audio = buildCmd temp_audio output := rfl

theorem process_cache_eq (env : ProcEnv) (data : EntryData) (p : String)
    (hd : env.entry = some data) (hp : findAudioPath env.cacheDir env.children = some p) :
    process_cache env =
      (if env.run (buildCmd p (env.outputDir ++ "/" ++ displayTitle data ++ ".mp3")) ≠ 0 then
        if pyEndsWith p ".m4s" then
          if env.run (buildCmd temp_audio (env.outputDir ++ "/" ++ displayTitle data ++ ".mp3")) ≠ 0 then
            { ffmpegCmds := [buildCmd p (env.outputDir ++ "/" ++ displayTitle data ++ ".mp3"),
                buildCmd temp_audio (env.outputDir ++ "/" ++ displayTitle data ++ ".mp3")],
              tempContent := some (env.blob.drop 9), tempRemoved := true,
              convertFailed := true }
          else
            afterSuccess env (env.outputDir ++ "/" ++ displayTitle data ++ ".mp3")
              { ffmpegCmds := [buildCmd p (env.outputDir ++ "/" ++ displayTitle data ++ ".mp3"),
                  buildCmd temp_audio (env.outputDir ++ "/" ++ displayTitle data ++ ".mp3")],
                tempContent := some (env.blob.drop 9), tempRemoved := true }
        else
          { ffmpegCmds := [buildCmd p (env.outputDir ++ "/" ++ displayTitle data ++ ".mp3")],
            convertFailed := true }
      else
        afterSuccess env (env.outputDir ++ "/" ++ displayTitle data ++ ".mp3")
          { ffmpegCmds := [buildCmd p (env.outputDir ++ "/" ++ displayTitle data ++ ".mp3")] }) := by
  unfold process_cache
  rw [hd]
  simp only [buildCmd_set]
  rw [hp]

/-- C6: when no immediate subdirectory holds `audio.m4s` or `0.blv`, the
entry is reported skipped and processing returns without any transcoder
invocation and without an output file; the outcome is an ordinary trace,
not an abort. -/
theorem skip_no_audio (env : ProcEnv) (data : EntryData)
    (hd : env.entry = some data)
    (hp : findAudioPath env.cacheDir env.children = none) :
    process_cache env = { skipped := true } ∧
    (process_cache env).ffmpegCmds = [] ∧
    (process_cache env).outputFile = none := by
  have h : process_cache env = { skipped := true } := by
    unfold process_cache
    rw [hd]
    simp only
    rw [hp]
  exact ⟨h, by rw [h], by rw [h]⟩

/-- C7: metadata extraction yields no metadata when no client is
configured, when the service call fails, or when the response body does
not parse; it is a total function (no exception escapes), and whenever it
yields no metadata the caller neither tags nor renames the output file. -/
theorem ai_failure_returns_none :
    (∀ (svc : Except Unit String) (parse : String → Option Metadata),
      extract_metadata_with_ai false svc parse = none) ∧
    (∀ (client : Bool) (parse : String → Option Metadata),
      extract_metadata_with_ai client (.error ()) parse = none) ∧
    (∀ (client : Bool) (content : String) (parse : String → Option Metadata),
      parse content = none → extract_metadata_with_ai client (.ok content) parse = none) ∧
    (∀ env : ProcEnv,
      extract_metadata_with_ai env.client env.svc env.parseMeta = none →
      (process_cache env).tagsApplied = none ∧ (process_cache env).renamedTo = none) := by
  refine ⟨fun svc parse => rfl, ?_, ?_, ?_⟩
  · intro client parse; cases client <;> rfl
  · intro client content parse h; cases client <;> simp [extract_metadata_with_ai, h]
  · intro env h
    cases he : env.entry with
    | none => exact ⟨by simp [process_cache, he], by simp [process_cache, he]⟩
    | some data =>
      cases hp : findAudioPath env.cacheDir env.children with
      | none =>
        have hs := (skip_no_audio env data he hp).1
        exact ⟨by rw [hs], by rw [hs]⟩
      | some p =>
        rw [process_cache_eq env data p he hp]
        split
        · split
          · split
            · exact ⟨rfl, rfl⟩
            · exact afterSuccess_noMeta env _ _ h
          · exact ⟨rfl, rfl⟩
        · exact afterSuccess_noMeta env _ _ h

/-- C2: the fallback is taken precisely when the primary invocation exits
non-zero and the source path ends in `.m4s`; it writes the blob minus its
first 9 bytes to the temp file, reruns the command with only the input
argument replaced by the temp file (same output path and options), and
removes the temp file whether or not the retry succeeds. -/
theorem fallback_spec (env : ProcEnv) (data : EntryData) (p : String)
    (hd : env.entry = some data)
    (hp : findAudioPath env.cacheDir env.children = some p) :
    ((process_cache env).tempContent.isSome = true ↔
      (env.run (buildCmd p (env.outputDir ++ "/" ++ displayTitle data ++ ".mp3")) ≠ 0 ∧
        pyEndsWith p ".m4s" = true)) ∧
    (env.run (buildCmd p (env.outputDir ++ "/" ++ displayTitle data ++ ".mp3")) ≠ 0 →
      pyEndsWith p ".m4s" = true →
      (process_cache env).tempContent = some (env.blob.drop 9) ∧
      (process_cache env).ffmpegCmds =
        [buildCmd p (env.outputDir ++ "/" ++ displayTitle data ++ ".mp3"),
         buildCmd temp_audio (env.outputDir ++ "/" ++ displayTitle data ++ ".mp3")] ∧
      (process_cache env).tempRemoved = true) ∧
    (process_cache env).tempRemoved = (process_cache env).tempContent.isSome := by
  rw [process_cache_eq env data p hd hp]
  by_cases h1 : env.run (buildCmd p (env.outputDir ++ "/" ++ displayTitle data ++ ".mp3")) = 0
  · rw [if_neg (show ¬(env.run (buildCmd p (env.outputDir ++ "/" ++ displayTitle data ++ ".mp3")) ≠ 0) by simp [h1])]
    obtain ⟨-, -, -, h4, h5, -, -⟩ := afterSuccess_preserves env
      (env.outputDir ++ "/" ++ displayTitle data ++ ".mp3")
      { ffmpegCmds := [buildCmd p (env.outputDir ++ "/" ++ displayTitle data ++ ".mp3")] }
    refine ⟨by simp [h4, h1], fun hcon _ => absurd h1 hcon, by rw [h4, h5]; rfl⟩
  · rw [if_pos h1]
    by_cases h2 : pyEndsWith p ".m4s" = true
    · rw [if_pos h2]
      by_cases h3 : env.run (buildCmd temp_audio (env.outputDir ++ "/" ++ displayTitle data ++ ".mp3")) = 0
      · rw [if_neg (show ¬(env.run (buildCmd temp_audio (env.outputDir ++ "/" ++ displayTitle data ++ ".mp3")) ≠ 0) by simp [h3])]
        obtain ⟨-, -, h3c, h4, h5, -, -⟩ := afterSuccess_preserves env
          (env.outputDir ++ "/" ++ displayTitle data ++ ".mp3")
          { ffmpegCmds := [buildCmd p (env.outputDir ++ "/" ++ displayTitle data ++ ".mp3"),
              buildCmd temp_audio (env.outputDir ++ "/" ++ displayTitle data ++ ".mp3")],
            tempContent := some (env.blob.drop 9), tempRemoved := true }
        refine ⟨by simp [h4, h1, h2], fun _ _ => ⟨h4, h3c, h5⟩, by rw [h4, h5]; rfl⟩
      · rw [if_pos h3]
        refine ⟨by simp [h1, h2], fun _ _ => ⟨rfl, rfl, rfl⟩, rfl⟩
    · rw [if_neg (show ¬(pyEndsWith p ".m4s" = true) from h2)]
      refine ⟨by simp [h2], fun _ hcon => absurd hcon h2, rfl⟩

/-- C8: the run exits with status 1 exactly when the transcoder is not
invocable, the input path does not exist, or the output directory is
absent and cannot be created; every other completed run exits 0, whatever
the scanned tree and the per-entry outcomes are (zero entries included). -/
theorem exit_status_spec (m : MainEnv) :
    ((main m).exitCode = 1 ↔
      (m.ffmpegOK = false ∨ m.inputExists = false ∨
        (m.outputExists = false ∧ m.mkdirOK = false))) ∧
    ((main m).exitCode = 0 ∨ (main m).exitCode = 1) ∧
    (∀ (c : List FSNode) (penv : String → ProcEnv),
      (main { m with rootChildren := c, procEnvOf := penv }).exitCode =
        (main m).exitCode) := by
  refine ⟨?_, ?_, ?_⟩
  · rw [main_exitCode]
    cases hf : m.ffmpegOK <;> cases hi : m.inputExists <;>
      cases ho : m.outputExists <;> cases hk : m.mkdirOK <;> simp
  · rw [main_exitCode]
    cases hf : m.ffmpegOK <;> cases hi : m.inputExists <;>
      cases ho : m.outputExists <;> cases hk : m.mkdirOK <;> simp
  · intro c penv
    rw [main_exitCode, main_exitCode]

/-- C9: whenever the prerequisite checks pass and at least one cache entry
is found, the printed summary count equals the number of walked
directories whose file list contains `entry.json`, counting skipped and
failed entries exactly like converted ones (it does not depend on the
per-entry environments at all). -/
theorem summary_count_spec (m : MainEnv)
    (hf : m.ffmpegOK = true) (hi : m.inputExists = true)
    (ho : m.outputExists = true ∨ m.mkdirOK = true)
    (hne : find_bilibili_cache m.rootPath m.rootChildren ≠ []) :
    (main m).summaryCount =
      some ((allDirs m.rootPath m.rootChildren).countP
        (fun x => decide ("entry.json" ∈ x.2))) ∧
    (∀ penv : String → ProcEnv,
      (main { m with procEnvOf := penv }).summaryCount = (main m).summaryCount) := by
  have hcount : (find_bilibili_cache m.rootPath m.rootChildren).length =
      (allDirs m.rootPath m.rootChildren).countP (fun x => decide ("entry.json" ∈ x.2)) :=
    length_filterMap_count _ _ _
  constructor
  · rcases ho with ho | ho <;>
      simp [main, hf, hi, ho, hne, hcount]
  · intro penv
    rcases ho with ho | ho <;> simp [main, hf, hi, ho] <;> rw [if_neg hne, if_neg hne]

/-- C3 (amended): when AI renaming needs a fresh name, the counter is
substituted at every occurrence of the substring `.mp3` in the full target
path — which coincides with appending ` (N)` before the extension exactly
when `.mp3` occurs in the path only as the final extension — with N
starting at 1 and the loop stopping at the first name that is not an
existing path, so the rename never targets an existing file; in
particular an existing `o/Artist - Title.mp3` yields
`o/Artist - Title (1).mp3`. -/
theorem rename_collision_amended :
    (∀ (existing : List String) (dir nb : String),
      some (resolveRename existing (dir ++ "/" ++ nb ++ ".mp3")) =
        (candSeq existing (dir ++ "/" ++ nb ++ ".mp3")).find?
          (fun x => !(existing.contains x)) ∧
      resolveRename existing (dir ++ "/" ++ nb ++ ".mp3") ∉ existing ∧
      ((dir ++ "/" ++ nb ++ ".mp3") ∉ existing →
        resolveRename existing (dir ++ "/" ++ nb ++ ".mp3") = dir ++ "/" ++ nb ++ ".mp3")) ∧
    (∀ (stem : String) (n : Nat), ¬ (mp3L <:+: (stem.data ++ ['.', 'm', 'p'])) →
      candidate (stem ++ ".mp3") n = stem ++ " (" ++ natReprS n ++ ").mp3") ∧
    (∀ (env : ProcEnv) (r : String),
      (process_cache env).renamedTo = some r → r ∉ env.existing) ∧
    resolveRename ["o/Artist - Title.mp3"] "o/Artist - Title.mp3" =
      "o/Artist - Title (1).mp3" := by
  refine ⟨?_, ?_, process_renamed_safe, by decide⟩
  · intro existing dir nb
    have hb : (dir ++ "/" ++ nb ++ ".mp3").data = (dir ++ "/" ++ nb).data ++ mp3L := by
      rw [String.data_append]; rfl
    exact ⟨resolveRename_spec existing _ hb, resolveRename_not_mem existing _ hb,
      fun h => resolveRename_of_free existing _ h⟩
  · intro stem n h
    rw [candidate_extension stem n h]
    apply String.ext
    simp [counterName, String.data_append, List.append_assoc]

/-- C3 (counterexample): with AI artist `U` and title `A.mp3 B`, and the
computed target `o/U - A.mp3 B.mp3` already existing, the code renames to
`o/U - A (1).mp3 B (1).mp3` rather than appending the counter before the
final `.mp3` extension (`o/U - A.mp3 B (1).mp3`), because `str.replace`
substitutes every occurrence of `.mp3`. -/
theorem rename_collision_counterexample :
    (process_cache xEnvRename).renamedTo = some "o/U - A (1).mp3 B (1).mp3" ∧
    (process_cache xEnvRename).renamedTo ≠ some "o/U - A.mp3 B (1).mp3" := by
  exact ⟨by decide, by decide⟩

/-- C3 (witness): the amended statement applied at concrete inputs. -/
theorem rename_collision_witness :
    resolveRename ["d/x.mp3"] ("d" ++ "/" ++ "x" ++ ".mp3") ∉ ["d/x.mp3"] ∧
    candidate ("d/x" ++ ".mp3") 2 = "d/x" ++ " (" ++ natReprS 2 ++ ").mp3" ∧
    "o/U - A (1).mp3 B (1).mp3" ∉ xEnvRename.existing := by
  refine ⟨(rename_collision_amended.1 ["d/x.mp3"] "d" "x").2.1,
    rename_collision_amended.2.1 "d/x" 2 (by decide),
    rename_collision_amended.2.2.1 xEnvRename "o/U - A (1).mp3 B (1).mp3" (by decide)⟩

/-- C2 (witness): the fallback machinery observed on a concrete failing
`.m4s` input. -/
theorem fallback_spec_witness :
    (process_cache wEnvAudio).tempContent = some (wEnvAudio.blob.drop 9) ∧
    (process_cache wEnvAudio).ffmpegCmds =
      [buildCmd "c/1/audio.m4s"
        (wEnvAudio.outputDir ++ "/" ++ displayTitle ⟨some "vid", none⟩ ++ ".mp3"),
       buildCmd temp_audio
        (wEnvAudio.outputDir ++ "/" ++ displayTitle ⟨some "vid", none⟩ ++ ".mp3")] ∧
    (process_cache wEnvAudio).tempRemoved = true :=
  (fallback_spec wEnvAudio ⟨some "vid", none⟩ "c/1/audio.m4s" rfl (by decide)).2.1
    (by decide) (by decide)

/-- C4 (witness): the sanitizer evaluated on concrete characters. -/
theorem sanitize_pointwise_witness :
    (sanitize_filename "a:b").length = ("a:b" : String).length ∧
    sanChar ':' = '_' ∧ sanChar 'a' = 'a' :=
  ⟨(sanitize_pointwise "a:b").1,
   ((sanitize_pointwise "a:b").2.2 ':').1 (by decide),
   ((sanitize_pointwise "a:b").2.2 'a').2 (by decide)⟩

/-- C5 (witness): the display title on a concrete entry with and without
a part name. -/
theorem display_title_witness :
    displayTitle ⟨some "Concert", some ⟨some "Encore"⟩⟩ =
      sanitize_filename ("Concert" ++ "_" ++ "Encore") ∧
    displayTitle ⟨some "Concert", none⟩ = sanitize_filename "Concert" :=
  ⟨(display_title_spec "Concert" "Encore" none).2.2.1 (by decide),
   (display_title_spec "Concert" "Encore" none).1⟩

/-- C6 (witness): a concrete cache directory with no audio candidate is
skipped without transcoding. -/
theorem skip_no_audio_witness :
    process_cache wEnvSkip = { skipped := true } ∧
    (process_cache wEnvSkip).ffmpegCmds = [] ∧
    (process_cache wEnvSkip).outputFile = none :=
  skip_no_audio wEnvSkip ⟨some "t", none⟩ rfl (by decide)

/-- C7 (witness): a concrete unparsable AI response yields no metadata,
no tags and no rename. -/
theorem ai_failure_witness :
    extract_metadata_with_ai wEnvNoMeta.client wEnvNoMeta.svc wEnvNoMeta.parseMeta = none ∧
    (process_cache wEnvNoMeta).tagsApplied = none ∧
    (process_cache wEnvNoMeta).renamedTo = none := by
  have h : extract_metadata_with_ai wEnvNoMeta.client wEnvNoMeta.svc wEnvNoMeta.parseMeta
      = none :=
    ai_failure_returns_none.2.2.1 wEnvNoMeta.client "not json" wEnvNoMeta.parseMeta rfl
  exact ⟨h, (ai_failure_returns_none.2.2.2 wEnvNoMeta h).1,
    (ai_failure_returns_none.2.2.2 wEnvNoMeta h).2⟩

/-- C9 (witness): the summary count on a concrete tree with two entry
directories, one of them nested. -/
theorem summary_count_witness :
    (main wMainEnv).summaryCount =
      some ((allDirs wMainEnv.rootPath wMainEnv.rootChildren).countP
        (fun x => decide ("entry.json" ∈ x.2))) :=
  (summary_count_spec wMainEnv rfl rfl (Or.inl rfl)
    (by simp [find_bilibili_cache, allDirs, walkListF, fileNamesOf, wMainEnv, wTree])).1

end Bili
